import Mathlib

/-!
Verification of the Johnson's SU distribution implementation
(`tensorflow_probability/python/distributions/johnson_su.py`).

The development embeds, as Lean definitions:

* a shape model of the framework's broadcasting (`broadcastDim`,
  `broadcastShape`) together with the batch-shape computation
  (`batchShapeTensor`, `batchShapeStatic`) and the shape trees of the
  elementwise operations in `_log_prob`, `_cdf`, `_sample_n`, `_variance`;
* real-valued scalar semantics of the closed-form formulas
  (`johnsonLogProb`, `johnsonCdf`, `johnsonSampleFromUniform`,
  `johnsonVariance`);
* the parameter-validation assertions of `_parameter_control_dependencies`
  and a NaN-propagating value domain (`FVal`) that captures the
  floating-point behaviour of `log` on nonpositive arguments.

Special functions supplied by the external framework (the standard-normal
CDF `ndtr`, its inverse `ndtri`, `log1psquare`, `expm1`) are modelled from
the specification, which describes them mathematically.
-/

/-- Broadcasting of a single dimension pair, following NumPy/TensorFlow
semantics: equal dimensions broadcast to themselves and a dimension of
size one stretches to match the other; anything else is an error. -/
def broadcastDim (a b : Nat) : Option Nat :=
  if a = b then some a
  else if a = 1 then some b
  else if b = 1 then some a
  else none

/-- Broadcasting of two shapes given with their dimension lists reversed
(innermost dimension first); the shorter list is implicitly padded with
ones, which is the right-alignment rule of NumPy/TensorFlow. -/
def broadcastRev : List Nat → List Nat → Option (List Nat)
  | [], ys => some ys
  | x :: xs, [] => some (x :: xs)
  | x :: xs, y :: ys =>
    match broadcastDim x y, broadcastRev xs ys with
    | some d, some rest => some (d :: rest)
    | _, _ => none

/-- Broadcasting of two shapes (`prefer_static.broadcast_shape` /
`tf.broadcast_static_shape`); `none` models the shape-incompatibility
error. -/
def broadcastShape (xs ys : List Nat) : Option (List Nat) :=
  (broadcastRev xs.reverse ys.reverse).map List.reverse

/-- Broadcasting lifted to `Option`-valued shapes, propagating errors;
this is the shape semantics of one elementwise tensor operation. -/
def bshape : Option (List Nat) → Option (List Nat) → Option (List Nat)
  | some a, some b => broadcastShape a b
  | _, _ => none

/-- Shape semantics of `JohnsonSU._batch_shape_tensor`: the left fold of
pairwise broadcasting over the shapes of `gamma`, `delta`, `loc`,
`scale` (`functools.reduce(prefer_static.broadcast_shape, ...)`). -/
def batchShapeTensor (gs ds ls ss : List Nat) : Option (List Nat) :=
  bshape (bshape (bshape (some gs) (some ds)) (some ls)) (some ss)

/-- Shape semantics of `JohnsonSU._batch_shape`: the left fold of
`tf.broadcast_static_shape` over the four parameter shapes. -/
def batchShapeStatic (gs ds ls ss : List Nat) : Option (List Nat) :=
  bshape (bshape (bshape (some gs) (some ds)) (some ls)) (some ss)

/-- The elementwise broadcast of the four parameter shapes, as the
specification words it: the claim-side definition compared with the
code-side `batchShapeTensor`/`batchShapeStatic`. -/
def broadcastOfFour (gs ds ls ss : List Nat) : Option (List Nat) :=
  bshape (bshape (bshape (some gs) (some ds)) (some ls)) (some ss)

/-- Shape tree of `JohnsonSU._log_prob`: `y = (x - loc) / scale`, then
`log_unnormalized = -0.5*log1psquare(y) - 0.5*square(gamma + delta*asinh(y))`,
`log_normalization = log(scale/delta) + 0.5*log(2*pi)` (the last summand is
a scalar), returning `log_unnormalized - log_normalization`. -/
def logProbShape (xs gs ds ls ss : List Nat) : Option (List Nat) :=
  let y := bshape (bshape (some xs) (some ls)) (some ss)
  let lu := bshape y (bshape (some gs) (bshape (some ds) y))
  let ln := bshape (some ss) (some ds)
  bshape lu ln

/-- Shape tree of `JohnsonSU._cdf`: `y = (x - loc) / scale`, returning
`ndtr(gamma + delta * asinh(y))` (ndtr is elementwise). -/
def cdfShape (xs gs ds ls ss : List Nat) : Option (List Nat) :=
  let y := bshape (bshape (some xs) (some ls)) (some ss)
  bshape (some gs) (bshape (some ds) y)

/-- Shape tree of `JohnsonSU._sample_n`: the uniform draw has shape
`[n] + batch_shape`, then `sinh((ndtri(u) - gamma) / delta)` and finally
`samples * scale + loc`. -/
def sampleShape (n : Nat) (gs ds ls ss : List Nat) : Option (List Nat) :=
  (batchShapeTensor gs ds ls ss).bind fun b =>
    bshape (bshape (bshape (bshape (some (n :: b)) (some gs)) (some ds))
      (some ss)) (some ls)

/-- Shape tree of `JohnsonSU._variance`: `gamma`, `delta` and `scale` are
each multiplied by `tf.ones(batch_shape)` and then combined as
`0.5 * scale**2 * expm1(1/delta**2) * (exp(1/delta**2) * cosh(2*gamma/delta) + 1)`. -/
def varianceShape (gs ds ls ss : List Nat) : Option (List Nat) :=
  (batchShapeTensor gs ds ls ss).bind fun b =>
    let ge := bshape (some gs) (some b)
    let de := bshape (some ds) (some b)
    let se := bshape (some ss) (some b)
    bshape (bshape se de) (bshape de (bshape ge de))

/-- Dimension broadcasting lifted to `Option`. -/
def dimJoin : Option Nat → Option Nat → Option Nat
  | some a, some b => broadcastDim a b
  | _, _ => none

/-- Reversed-shape broadcasting lifted to `Option`. -/
def revJoin (x y : Option (List Nat)) : Option (List Nat) :=
  x.bind fun a => y.bind fun b => broadcastRev a b

/-- The absorption preorder induced by broadcasting: `x` broadcasts into `y`
without changing it. -/
def shapeLE (x y : Option (List Nat)) : Prop := bshape x y = y

/-- Modelled from the spec: `special_math.ndtr`, the standard-normal CDF Φ
(the module `tensorflow_probability.python.internal.special_math` is not
under `src/`); embedded as the CDF of the standard Gaussian measure. -/
noncomputable def ndtr (z : ℝ) : ℝ :=
  ProbabilityTheory.cdf (ProbabilityTheory.gaussianReal 0 1) z

/-- Modelled from the spec: `tf.math.ndtri`, the inverse standard-normal
CDF (probit), supplied by the external numerical framework. -/
noncomputable def ndtri : ℝ → ℝ := Function.invFun ndtr

/-- Modelled from the spec: `tfp.math.log1psquare` computes the numerically
stable `log1p(y**2) = log(1 + y**2)` (the module
`tensorflow_probability.python.math` is not under `src/`). -/
noncomputable def log1psquare (y : ℝ) : ℝ := Real.log (1 + y ^ 2)

/-- Modelled from the spec: `tf.math.expm1`, in real arithmetic
`exp x - 1`. -/
noncomputable def expm1 (x : ℝ) : ℝ := Real.exp x - 1

/-- Real-valued semantics of `JohnsonSU._log_prob`:
`y = (x - loc) / scale`,
`log_unnormalized = -0.5 * log1psquare(y) - 0.5 * square(gamma + delta * asinh(y))`,
`log_normalization = log(scale / delta) + 0.5 * log(2 * pi)`,
returning `log_unnormalized - log_normalization`. -/
noncomputable def johnsonLogProb (gamma delta loc scale x : ℝ) : ℝ :=
  let y := (x - loc) / scale
  let log_unnormalized :=
    -0.5 * log1psquare y - 0.5 * (gamma + delta * Real.arsinh y) ^ 2
  let log_normalization :=
    Real.log (scale / delta) + 0.5 * Real.log (2 * Real.pi)
  log_unnormalized - log_normalization

/-- Real-valued semantics of `JohnsonSU._cdf`: `y = (x - loc) / scale`,
returning `ndtr(gamma + delta * asinh(y))`. -/
noncomputable def johnsonCdf (gamma delta loc scale x : ℝ) : ℝ :=
  let y := (x - loc) / scale
  ndtr (gamma + delta * Real.arsinh y)

/-- Real-valued semantics of one element of `JohnsonSU._sample_n` as a
function of the underlying uniform variate `u`:
`samples = sinh((ndtri(u) - gamma) / delta)`, returned as
`samples * scale + loc` (no absolute value of `scale` is taken). -/
noncomputable def johnsonSampleFromUniform (gamma delta loc scale u : ℝ) : ℝ :=
  Real.sinh ((ndtri u - gamma) / delta) * scale + loc

/-- Real-valued semantics of `JohnsonSU._variance`:
`0.5 * scale**2 * expm1(1/delta**2) * (exp(1/delta**2) * cosh(2*gamma/delta) + 1)`. -/
noncomputable def johnsonVariance (gamma delta scale : ℝ) : ℝ :=
  0.5 * scale ^ 2 * expm1 (1 / delta ^ 2) *
    (Real.exp (1 / delta ^ 2) * Real.cosh (2 * gamma / delta) + 1)

/-- Error message of the `delta` positivity assertion in
`JohnsonSU._parameter_control_dependencies`. -/
def deltaPosMsg : String := "Argument `delta` must be positive."

/-- Error message of the `scale` positivity assertion in
`JohnsonSU._parameter_control_dependencies`. -/
def scalePosMsg : String := "Argument `scale` must be positive."

/-- One `assert_util.assert_positive` check: the proposition that the
checked value is positive, paired with the message raised when it is not. -/
def assertPositive (v : ℝ) (msg : String) : Prop × String := (0 < v, msg)

/-- The assertion list built by the domain-validation part of
`JohnsonSU._parameter_control_dependencies`: empty when `validate_args` is
off; otherwise a positivity check for `delta` and one for `scale`, each
guarded by `is_init != tensor_util.is_ref(...)`. -/
def parameterControlAssertions (validateArgs isInit deltaIsRef scaleIsRef : Bool)
    (delta scale : ℝ) : List (Prop × String) :=
  if validateArgs = false then []
  else
    (if isInit ≠ deltaIsRef then [assertPositive delta deltaPosMsg] else []) ++
      (if isInit ≠ scaleIsRef then [assertPositive scale scalePosMsg] else [])

/-- Construction raises a domain error iff some emitted assertion fails. -/
def raisesDomainError (assertions : List (Prop × String)) : Prop :=
  ∃ a ∈ assertions, ¬ a.1

/-- Separator used when rendering a shape. -/
def commaSep : String := ", "

/-- Opening bracket used when rendering a shape. -/
def lBracket : String := "["

/-- Closing bracket used when rendering a shape. -/
def rBracket : String := "]"

/-- Rendering of a parameter shape inside the `ValueError` message of
`JohnsonSU._parameter_control_dependencies`. -/
def shapeStr (s : List Nat) : String :=
  lBracket ++ String.intercalate commaSep (s.map toString) ++ rBracket

/-- Head of the shape-incompatibility message. -/
def shapeMsgHead : String := "Arguments must have compatible shapes; gamma.shape="

/-- Separator before the `delta` shape in the message. -/
def shapeMsgDelta : String := ", delta.shape="

/-- Separator before the `loc` shape in the message. -/
def shapeMsgLoc : String := ", loc.shape="

/-- Separator before the `scale` shape in the message. -/
def shapeMsgScale : String := ", scale.shape="

/-- Trailing period of the message. -/
def shapeMsgTail : String := "."

/-- The `ValueError` message raised at construction when the statically
known shapes are incompatible, carrying all four parameter shapes. -/
def shapeErrMsg (gs ds ls ss : List Nat) : String :=
  shapeMsgHead ++ shapeStr gs ++ shapeMsgDelta ++ shapeStr ds ++
    shapeMsgLoc ++ shapeStr ls ++ shapeMsgScale ++ shapeStr ss ++ shapeMsgTail

/-- Construction-time static shape check in the `is_init` branch of
`JohnsonSU._parameter_control_dependencies`: a failure of
`self._batch_shape()` is re-raised as a `ValueError` naming all four
shapes; otherwise no shape error is raised. -/
def constructionShapeError (gs ds ls ss : List Nat) : Option String :=
  match batchShapeStatic gs ds ls ss with
  | none => some (shapeErrMsg gs ds ls ss)
  | some _ => none

/-- The substring relation used to state that an error message includes a
given piece of text. -/
def containsStr (hay piece : String) : Prop := ∃ p q, hay = p ++ piece ++ q

/-- Floating-point-like values: either NaN or a finite real. Infinities do
not arise on the evaluation paths considered here. -/
inductive FVal where
  | nan : FVal
  | fl : ℝ → FVal

/-- NaN-propagating addition. -/
def FVal.add : FVal → FVal → FVal
  | fl a, fl b => fl (a + b)
  | _, _ => nan

/-- NaN-propagating subtraction. -/
def FVal.sub : FVal → FVal → FVal
  | fl a, fl b => fl (a - b)
  | _, _ => nan

/-- NaN-propagating multiplication. -/
def FVal.mul : FVal → FVal → FVal
  | fl a, fl b => fl (a * b)
  | _, _ => nan

/-- NaN-propagating division. Division by zero, which never occurs on the
evaluation paths considered here, is mapped to NaN. -/
noncomputable def FVal.div : FVal → FVal → FVal
  | fl a, fl b => if b = 0 then nan else fl (a / b)
  | _, _ => nan

/-- NaN-propagating natural logarithm: a negative argument produces NaN as
in floating point; a zero argument, which would give `-inf` and never
occurs on the paths considered here, is also mapped to NaN. -/
noncomputable def FVal.log : FVal → FVal
  | fl a => if 0 < a then fl (Real.log a) else nan
  | nan => nan

/-- NaN-propagating inverse hyperbolic sine. -/
noncomputable def FVal.asinh : FVal → FVal
  | fl a => fl (Real.arsinh a)
  | nan => nan

/-- NaN-propagating square. -/
def FVal.sq : FVal → FVal
  | fl a => fl (a ^ 2)
  | nan => nan

/-- NaN-propagating `log1psquare`; its argument `1 + y^2` is positive, so a
finite input gives a finite output. -/
noncomputable def FVal.log1psq : FVal → FVal
  | fl a => fl (Real.log (1 + a ^ 2))
  | nan => nan

/-- NaN-propagating evaluation of `JohnsonSU._log_prob`, following the same
operation tree as `johnsonLogProb`; it records that with `validate_args`
off, domain violations surface as NaN results rather than errors. -/
noncomputable def johnsonLogProbF (gamma delta loc scale x : ℝ) : FVal :=
  let y := FVal.div (FVal.sub (FVal.fl x) (FVal.fl loc)) (FVal.fl scale)
  let log_unnormalized :=
    FVal.sub (FVal.mul (FVal.fl (-0.5)) (FVal.log1psq y))
      (FVal.mul (FVal.fl 0.5)
        (FVal.sq (FVal.add (FVal.fl gamma) (FVal.mul (FVal.fl delta) (FVal.asinh y)))))
  let log_normalization :=
    FVal.add (FVal.log (FVal.div (FVal.fl scale) (FVal.fl delta)))
      (FVal.fl (0.5 * Real.log (2 * Real.pi)))
  FVal.sub log_unnormalized log_normalization

/-- A dimension broadcasts with itself to itself. -/
theorem broadcastDim_self (a : Nat) : broadcastDim a a = some a := by
  simp [broadcastDim]

/-- Dimension broadcasting is commutative. -/
theorem broadcastDim_comm (a b : Nat) : broadcastDim a b = broadcastDim b a := by
  unfold broadcastDim
  split_ifs with h1 h2 h3 h4 h5 h6 h7 <;> simp_all

/-- Dimension broadcasting is associative at the `Option` level. -/
theorem dimJoin_assoc (x y z : Nat) :
    dimJoin (broadcastDim x y) (some z) = dimJoin (some x) (broadcastDim y z) := by
  unfold broadcastDim dimJoin
  by_cases hxy : x = y <;> by_cases hyz : y = z <;>
    by_cases hx1 : x = 1 <;> by_cases hy1 : y = 1 <;> by_cases hz1 : z = 1 <;>
    simp_all [broadcastDim]

/-- Reversed-shape broadcasting with the empty shape on the right. -/
theorem broadcastRev_nil_right (l : List Nat) : broadcastRev l [] = some l := by
  cases l <;> rfl

/-- Reversed-shape broadcasting is idempotent. -/
theorem broadcastRev_self (l : List Nat) : broadcastRev l l = some l := by
  induction l with
  | nil => rfl
  | cons x xs ih => simp [broadcastRev, broadcastDim_self, ih]

/-- Reversed-shape broadcasting is commutative. -/
theorem broadcastRev_comm (a b : List Nat) : broadcastRev a b = broadcastRev b a := by
  induction a generalizing b with
  | nil => cases b <;> rfl
  | cons x xs ih =>
    cases b with
    | nil => rfl
    | cons y ys => simp [broadcastRev, broadcastDim_comm x y, ih ys]

/-- Reversed-shape broadcasting is associative at the `Option` level. -/
theorem broadcastRev_assoc (a b c : List Nat) :
    revJoin (broadcastRev a b) (some c) = revJoin (some a) (broadcastRev b c) := by
  induction a generalizing b c with
  | nil =>
    cases hbc : broadcastRev b c with
    | none => simp [revJoin, broadcastRev, hbc]
    | some d => simp [revJoin, broadcastRev, hbc]
  | cons x xs ih =>
    cases b with
    | nil =>
      simp [revJoin, broadcastRev_nil_right, broadcastRev]
    | cons y ys =>
      cases c with
      | nil =>
        cases hab : broadcastRev (x :: xs) (y :: ys) with
        | none => simp [revJoin, hab, broadcastRev_nil_right]
        | some d => simp [revJoin, hab, broadcastRev_nil_right]
      | cons z zs =>
        have hdim := dimJoin_assoc x y z
        have hih := ih ys zs
        cases hxy : broadcastDim x y with
        | none =>
          cases hyz : broadcastDim y z with
          | none => simp [revJoin, broadcastRev, hxy, hyz]
          | some e =>
            have : dimJoin (some x) (some e) = none := by
              rw [← hyz, ← hdim, hxy]; rfl
            cases hrest : broadcastRev ys zs with
            | none => simp [revJoin, broadcastRev, hxy, hyz, hrest]
            | some rs =>
              simp only [revJoin, broadcastRev, hxy, hyz, hrest] at *
              simp only [dimJoin] at this
              simp [broadcastRev, this]
        | some d =>
          cases hyz : broadcastDim y z with
          | none =>
            have : dimJoin (some d) (some z) = none := by
              rw [← hxy, hdim, hyz]; rfl
            simp only [dimJoin] at this
            cases hrest : broadcastRev xs ys with
            | none =>
              have h2 : revJoin (some (x :: xs)) (broadcastRev (y :: ys) (z :: zs)) = none := by
                cases h3 : broadcastRev (y :: ys) (z :: zs) with
                | none => rfl
                | some w =>
                  simp only [broadcastRev, hyz] at h3
                  cases h4 : broadcastRev ys zs <;> simp [h4] at h3
              rw [h2]
              simp [revJoin, broadcastRev, hxy, hrest]
            | some rest =>
              have h2 : revJoin (some (x :: xs)) (broadcastRev (y :: ys) (z :: zs)) = none := by
                cases h3 : broadcastRev (y :: ys) (z :: zs) with
                | none => rfl
                | some w =>
                  simp only [broadcastRev, hyz] at h3
                  cases h4 : broadcastRev ys zs <;> simp [h4] at h3
              rw [h2]
              simp [revJoin, broadcastRev, hxy, hrest, this]
          | some e =>
            have hde : broadcastDim d z = broadcastDim x e := by
              have h5 : dimJoin (some d) (some z) = dimJoin (some x) (some e) := by
                rw [← hxy, ← hyz, hdim]
              simpa [dimJoin] using h5
            cases hrest : broadcastRev xs ys with
            | none =>
              cases hrest2 : broadcastRev ys zs with
              | none => simp [revJoin, broadcastRev, hxy, hyz, hrest, hrest2]
              | some rs2 =>
                have h6 : revJoin (some xs) (some rs2) = none := by
                  rw [← hrest2, ← hih, hrest]; rfl
                simp only [revJoin, Option.bind] at h6
                simp [revJoin, broadcastRev, hxy, hyz, hrest, hrest2, hde, h6]
            | some rest =>
              cases hrest2 : broadcastRev ys zs with
              | none =>
                have h6 : revJoin (some rest) (some zs) = none := by
                  rw [← hrest, hih, hrest2]; rfl
                simp only [revJoin, Option.bind] at h6
                simp [revJoin, broadcastRev, hxy, hyz, hrest, hrest2, hde, h6]
              | some rs2 =>
                have h6 : broadcastRev rest zs = broadcastRev xs rs2 := by
                  have h7 : revJoin (some rest) (some zs) = revJoin (some xs) (some rs2) := by
                    rw [← hrest, ← hrest2, hih]
                  simpa [revJoin] using h7
                cases h8 : broadcastRev rest zs with
                | none =>
                  simp [revJoin, broadcastRev, hxy, hyz, hrest, hrest2, hde, h8, ← h6]
                | some final =>
                  simp [revJoin, broadcastRev, hxy, hyz, hrest, hrest2, hde, h8, ← h6]

/-- Relating `bshape` to the reversed-form join. -/
theorem bshape_eq_revJoin (x y : Option (List Nat)) :
    bshape x y =
      (revJoin (x.map List.reverse) (y.map List.reverse)).map List.reverse := by
  cases x <;> cases y <;> simp [bshape, revJoin, broadcastShape]

/-- Lifted broadcasting is commutative. -/
theorem bshape_comm (x y : Option (List Nat)) : bshape x y = bshape y x := by
  cases x with
  | none => cases y <;> rfl
  | some a =>
    cases y with
    | none => rfl
    | some b => simp [bshape, broadcastShape, broadcastRev_comm a.reverse b.reverse]

/-- Lifted broadcasting is idempotent. -/
theorem bshape_idem (x : Option (List Nat)) : bshape x x = x := by
  cases x with
  | none => rfl
  | some a => simp [bshape, broadcastShape, broadcastRev_self]

/-- Lifted broadcasting is associative. -/
theorem bshape_assoc (x y z : Option (List Nat)) :
    bshape (bshape x y) z = bshape x (bshape y z) := by
  cases x with
  | none => cases y <;> cases z <;> rfl
  | some a =>
    cases y with
    | none => cases z <;> rfl
    | some b =>
      cases z with
      | none => cases h : bshape (some a) (some b) <;> rfl
      | some c =>
        have hL : bshape (bshape (some a) (some b)) (some c) =
            (revJoin (broadcastRev a.reverse b.reverse) (some c.reverse)).map
              List.reverse := by
          cases hab : broadcastRev a.reverse b.reverse with
          | none => simp [bshape, broadcastShape, hab, revJoin]
          | some d =>
            simp [bshape, broadcastShape, hab, revJoin, List.reverse_reverse]
        have hR : bshape (some a) (bshape (some b) (some c)) =
            (revJoin (some a.reverse) (broadcastRev b.reverse c.reverse)).map
              List.reverse := by
          cases hbc : broadcastRev b.reverse c.reverse with
          | none => simp [bshape, broadcastShape, hbc, revJoin]
          | some e =>
            simp [bshape, broadcastShape, hbc, revJoin, List.reverse_reverse]
        rw [hL, hR, broadcastRev_assoc]

/-- The left operand broadcasts into a join. -/
theorem shapeLE_sup_left (x y : Option (List Nat)) : shapeLE x (bshape x y) := by
  unfold shapeLE
  rw [← bshape_assoc, bshape_idem]

/-- The right operand broadcasts into a join. -/
theorem shapeLE_sup_right (x y : Option (List Nat)) : shapeLE y (bshape x y) := by
  unfold shapeLE
  rw [bshape_comm x y, ← bshape_assoc, bshape_idem]

/-- A join broadcasts into any common upper bound. -/
theorem shapeLE_sup {x y z : Option (List Nat)} (hx : shapeLE x z)
    (hy : shapeLE y z) : shapeLE (bshape x y) z := by
  unfold shapeLE at *
  rw [bshape_assoc, hy, hx]

/-- The absorption preorder is transitive. -/
theorem shapeLE_trans {x y z : Option (List Nat)} (h1 : shapeLE x y)
    (h2 : shapeLE y z) : shapeLE x z := by
  unfold shapeLE at *
  calc bshape x z = bshape x (bshape y z) := by rw [h2]
    _ = bshape (bshape x y) z := (bshape_assoc x y z).symm
    _ = bshape y z := by rw [h1]
    _ = z := h2

/-- The absorption preorder is antisymmetric. -/
theorem shapeLE_antisymm {x y : Option (List Nat)} (h1 : shapeLE x y)
    (h2 : shapeLE y x) : x = y := by
  unfold shapeLE at *
  calc x = bshape y x := h2.symm
    _ = bshape x y := bshape_comm y x
    _ = y := h1

/-- Unfolding a successful forward-shape broadcast into reversed form. -/
theorem broadcastShape_some_iff {a b c : List Nat} :
    broadcastShape a b = some c ↔
      broadcastRev a.reverse b.reverse = some c.reverse := by
  unfold broadcastShape
  constructor
  · intro h
    obtain ⟨d, hd, hdc⟩ := Option.map_eq_some'.mp h
    rw [hd, ← hdc, List.reverse_reverse]
  · intro h
    rw [h]
    simp

/-- A successful broadcast can be padded on the outermost side of the larger
shape (reversed form: appended past the end of the shorter operand). -/
theorem broadcastRev_append (a b t : List Nat) (h : broadcastRev a b = some a) :
    broadcastRev (a ++ t) b = some (a ++ t) := by
  induction b generalizing a with
  | nil => exact broadcastRev_nil_right (a ++ t)
  | cons y ys ih =>
    cases a with
    | nil => simp [broadcastRev] at h
    | cons x xs =>
      cases hd : broadcastDim x y with
      | none => simp [broadcastRev, hd] at h
      | some d =>
        cases hr : broadcastRev xs ys with
        | none => simp [broadcastRev, hd, hr] at h
        | some r =>
          simp only [broadcastRev, hd, hr, Option.some.injEq, List.cons.injEq] at h
          obtain ⟨hdx, hrx⟩ := h
          subst hdx; subst hrx
          simp [broadcastRev, hd, ih _ hr]

/-- Absorption into a batch shape survives prepending the sample dimension. -/
theorem shapeLE_cons {a B : List Nat} (n : Nat)
    (h : shapeLE (some a) (some B)) : shapeLE (some a) (some (n :: B)) := by
  have h1 : broadcastRev a.reverse B.reverse = some B.reverse :=
    broadcastShape_some_iff.mp h
  have h2 : broadcastRev B.reverse a.reverse = some B.reverse := by
    rw [broadcastRev_comm]; exact h1
  have h3 : broadcastRev (B.reverse ++ [n]) a.reverse =
      some (B.reverse ++ [n]) := broadcastRev_append B.reverse a.reverse [n] h2
  show bshape (some a) (some (n :: B)) = some (n :: B)
  have h4 : broadcastRev a.reverse (B.reverse ++ [n]) =
      some (B.reverse ++ [n]) := by rw [broadcastRev_comm]; exact h3
  simp [bshape, broadcastShape, List.reverse_cons, h4]

/-- Each parameter shape is absorbed by a successfully computed batch shape. -/
theorem batchShape_absorbs {gs ds ls ss B : List Nat}
    (hB : batchShapeTensor gs ds ls ss = some B) :
    shapeLE (some gs) (some B) ∧ shapeLE (some ds) (some B) ∧
      shapeLE (some ls) (some B) ∧ shapeLE (some ss) (some B) := by
  unfold batchShapeTensor at hB
  have hT : shapeLE (bshape (bshape (bshape (some gs) (some ds)) (some ls))
      (some ss)) (some B) := by
    unfold shapeLE
    rw [hB]
    exact bshape_idem (some B)
  have hGD : shapeLE (bshape (some gs) (some ds)) (some B) :=
    shapeLE_trans (shapeLE_trans (shapeLE_sup_left _ _) (shapeLE_sup_left _ _)) hT
  exact ⟨shapeLE_trans (shapeLE_sup_left _ _) hGD,
    shapeLE_trans (shapeLE_sup_right _ _) hGD,
    shapeLE_trans (shapeLE_trans (shapeLE_sup_right _ _) (shapeLE_sup_left _ _)) hT,
    shapeLE_trans (shapeLE_sup_right _ _) hT⟩

/-- The modelled standard-normal CDF is nonnegative. -/
theorem ndtr_nonneg (z : ℝ) : 0 ≤ ndtr z :=
  ProbabilityTheory.cdf_nonneg _ z

/-- The modelled standard-normal CDF is at most one. -/
theorem ndtr_le_one (z : ℝ) : ndtr z ≤ 1 :=
  ProbabilityTheory.cdf_le_one _ z

/-- The modelled standard-normal CDF is monotone. -/
theorem ndtr_mono {a b : ℝ} (h : a ≤ b) : ndtr a ≤ ndtr b :=
  ProbabilityTheory.monotone_cdf _ h

/-- The modelled standard-normal CDF is strictly monotone, because the
Gaussian density is everywhere positive. -/
theorem ndtr_lt_ndtr {a b : ℝ} (hab : a < b) : ndtr a < ndtr b := by
  have hμ : ProbabilityTheory.gaussianReal 0 1 (Set.Ioc a b)
      = ENNReal.ofReal (ndtr b - ndtr a) := by
    conv_lhs =>
      rw [← ProbabilityTheory.measure_cdf (ProbabilityTheory.gaussianReal 0 1)]
    exact StieltjesFunction.measure_Ioc _ a b
  have hpos : 0 < ProbabilityTheory.gaussianReal 0 1 (Set.Ioc a b) := by
    rw [ProbabilityTheory.gaussianReal_apply_eq_integral 0 one_ne_zero (Set.Ioc a b),
      ENNReal.ofReal_pos,
      MeasureTheory.setIntegral_pos_iff_support_of_nonneg_ae
        (MeasureTheory.ae_of_all _ fun x =>
          ProbabilityTheory.gaussianPDFReal_nonneg 0 1 x)
        (ProbabilityTheory.integrable_gaussianPDFReal 0 1).integrableOn]
    have hsub : Set.Ioc a b ⊆ Function.support (ProbabilityTheory.gaussianPDFReal 0 1) :=
      fun x _ =>
        Function.mem_support.mpr (ProbabilityTheory.gaussianPDFReal_pos 0 1 x one_ne_zero).ne'
    rw [Set.inter_eq_self_of_subset_right hsub, Real.volume_Ioc]
    exact ENNReal.ofReal_pos.mpr (by linarith)
  rw [hμ, ENNReal.ofReal_pos] at hpos
  linarith

/-- The modelled standard-normal CDF tends to one at plus infinity. -/
theorem tendsto_ndtr_atTop : Filter.Tendsto ndtr Filter.atTop (nhds 1) :=
  ProbabilityTheory.tendsto_cdf_atTop _

/-- The modelled standard-normal CDF tends to zero at minus infinity. -/
theorem tendsto_ndtr_atBot : Filter.Tendsto ndtr Filter.atBot (nhds 0) :=
  ProbabilityTheory.tendsto_cdf_atBot _

/-- The inverse hyperbolic sine tends to plus infinity. -/
theorem tendsto_arsinh_atTop : Filter.Tendsto Real.arsinh Filter.atTop Filter.atTop :=
  Filter.tendsto_atTop_atTop_of_monotone Real.arsinh_strictMono.monotone
    fun b => ⟨Real.sinh b, (Real.arsinh_sinh b).ge⟩

/-- The inverse hyperbolic sine tends to minus infinity. -/
theorem tendsto_arsinh_atBot : Filter.Tendsto Real.arsinh Filter.atBot Filter.atBot :=
  Filter.tendsto_atBot_atBot_of_monotone Real.arsinh_strictMono.monotone
    fun b => ⟨Real.sinh b, (Real.arsinh_sinh b).le⟩

/-- Reflexivity of the absorption preorder. -/
theorem shapeLE_refl (x : Option (List Nat)) : shapeLE x x := bshape_idem x

/-- The output shape of `_log_prob` is the batch shape whenever the input
shape is absorbed by the batch shape. -/
theorem logProbShape_eq_batch {xs gs ds ls ss B : List Nat}
    (hB : batchShapeTensor gs ds ls ss = some B)
    (hx : broadcastShape xs B = some B) :
    logProbShape xs gs ds ls ss = some B := by
  obtain ⟨hG, hD, hL, hS⟩ := batchShape_absorbs hB
  have hX : shapeLE (some xs) (some B) := hx
  have hY : shapeLE (bshape (bshape (some xs) (some ls)) (some ss)) (some B) :=
    shapeLE_sup (shapeLE_sup hX hL) hS
  have hfwd : shapeLE
      (bshape
        (bshape (bshape (bshape (some xs) (some ls)) (some ss))
          (bshape (some gs)
            (bshape (some ds) (bshape (bshape (some xs) (some ls)) (some ss)))))
        (bshape (some ss) (some ds))) (some B) :=
    shapeLE_sup (shapeLE_sup hY (shapeLE_sup hG (shapeLE_sup hD hY)))
      (shapeLE_sup hS hD)
  have hGT : shapeLE (some gs)
      (bshape
        (bshape (bshape (bshape (some xs) (some ls)) (some ss))
          (bshape (some gs)
            (bshape (some ds) (bshape (bshape (some xs) (some ls)) (some ss)))))
        (bshape (some ss) (some ds))) :=
    shapeLE_trans (shapeLE_sup_left _ _)
      (shapeLE_trans (shapeLE_sup_right _ _) (shapeLE_sup_left _ _))
  have hDT : shapeLE (some ds)
      (bshape
        (bshape (bshape (bshape (some xs) (some ls)) (some ss))
          (bshape (some gs)
            (bshape (some ds) (bshape (bshape (some xs) (some ls)) (some ss)))))
        (bshape (some ss) (some ds))) :=
    shapeLE_trans (shapeLE_sup_right _ _) (shapeLE_sup_right _ _)
  have hLT : shapeLE (some ls)
      (bshape
        (bshape (bshape (bshape (some xs) (some ls)) (some ss))
          (bshape (some gs)
            (bshape (some ds) (bshape (bshape (some xs) (some ls)) (some ss)))))
        (bshape (some ss) (some ds))) :=
    shapeLE_trans (shapeLE_sup_right _ _)
      (shapeLE_trans (shapeLE_sup_left _ _)
        (shapeLE_trans (shapeLE_sup_left _ _) (shapeLE_sup_left _ _)))
  have hST : shapeLE (some ss)
      (bshape
        (bshape (bshape (bshape (some xs) (some ls)) (some ss))
          (bshape (some gs)
            (bshape (some ds) (bshape (bshape (some xs) (some ls)) (some ss)))))
        (bshape (some ss) (some ds))) :=
    shapeLE_trans (shapeLE_sup_left _ _) (shapeLE_sup_right _ _)
  have hbwd : shapeLE (some B)
      (bshape
        (bshape (bshape (bshape (some xs) (some ls)) (some ss))
          (bshape (some gs)
            (bshape (some ds) (bshape (bshape (some xs) (some ls)) (some ss)))))
        (bshape (some ss) (some ds))) := by
    rw [← hB]
    exact shapeLE_sup (shapeLE_sup (shapeLE_sup hGT hDT) hLT) hST
  exact shapeLE_antisymm hfwd hbwd

/-- The output shape of `_cdf` is the batch shape whenever the input shape
is absorbed by the batch shape. -/
theorem cdfShape_eq_batch {xs gs ds ls ss B : List Nat}
    (hB : batchShapeTensor gs ds ls ss = some B)
    (hx : broadcastShape xs B = some B) :
    cdfShape xs gs ds ls ss = some B := by
  obtain ⟨hG, hD, hL, hS⟩ := batchShape_absorbs hB
  have hX : shapeLE (some xs) (some B) := hx
  have hY : shapeLE (bshape (bshape (some xs) (some ls)) (some ss)) (some B) :=
    shapeLE_sup (shapeLE_sup hX hL) hS
  have hfwd : shapeLE
      (bshape (some gs)
        (bshape (some ds) (bshape (bshape (some xs) (some ls)) (some ss))))
      (some B) :=
    shapeLE_sup hG (shapeLE_sup hD hY)
  have hGT : shapeLE (some gs)
      (bshape (some gs)
        (bshape (some ds) (bshape (bshape (some xs) (some ls)) (some ss)))) :=
    shapeLE_sup_left _ _
  have hDT : shapeLE (some ds)
      (bshape (some gs)
        (bshape (some ds) (bshape (bshape (some xs) (some ls)) (some ss)))) :=
    shapeLE_trans (shapeLE_sup_left _ _) (shapeLE_sup_right _ _)
  have hLT : shapeLE (some ls)
      (bshape (some gs)
        (bshape (some ds) (bshape (bshape (some xs) (some ls)) (some ss)))) :=
    shapeLE_trans (shapeLE_sup_right _ _)
      (shapeLE_trans (shapeLE_sup_left _ _)
        (shapeLE_trans (shapeLE_sup_right _ _) (shapeLE_sup_right _ _)))
  have hST : shapeLE (some ss)
      (bshape (some gs)
        (bshape (some ds) (bshape (bshape (some xs) (some ls)) (some ss)))) :=
    shapeLE_trans (shapeLE_sup_right _ _)
      (shapeLE_trans (shapeLE_sup_right _ _) (shapeLE_sup_right _ _))
  have hbwd : shapeLE (some B)
      (bshape (some gs)
        (bshape (some ds) (bshape (bshape (some xs) (some ls)) (some ss)))) := by
    rw [← hB]
    exact shapeLE_sup (shapeLE_sup (shapeLE_sup hGT hDT) hLT) hST
  exact shapeLE_antisymm hfwd hbwd

/-- The output shape of `_sample_n` is the batch shape with the sample
count prepended. -/
theorem sampleShape_eq_batch {gs ds ls ss B : List Nat} (n : Nat)
    (hB : batchShapeTensor gs ds ls ss = some B) :
    sampleShape n gs ds ls ss = some (n :: B) := by
  obtain ⟨hG, hD, hL, hS⟩ := batchShape_absorbs hB
  have hGn := shapeLE_cons n hG
  have hDn := shapeLE_cons n hD
  have hLn := shapeLE_cons n hL
  have hSn := shapeLE_cons n hS
  have hU : shapeLE (some (n :: B)) (some (n :: B)) := shapeLE_refl _
  have hfwd : shapeLE
      (bshape (bshape (bshape (bshape (some (n :: B)) (some gs)) (some ds))
        (some ss)) (some ls)) (some (n :: B)) :=
    shapeLE_sup (shapeLE_sup (shapeLE_sup (shapeLE_sup hU hGn) hDn) hSn) hLn
  have hbwd : shapeLE (some (n :: B))
      (bshape (bshape (bshape (bshape (some (n :: B)) (some gs)) (some ds))
        (some ss)) (some ls)) :=
    shapeLE_trans (shapeLE_sup_left _ _)
      (shapeLE_trans (shapeLE_sup_left _ _)
        (shapeLE_trans (shapeLE_sup_left _ _) (shapeLE_sup_left _ _)))
  have hmain := shapeLE_antisymm hfwd hbwd
  unfold sampleShape
  rw [hB]
  exact hmain

/-- The output shape of `_variance` is the full batch shape: every used
parameter is broadcast-expanded to the batch shape before combination. -/
theorem varianceShape_eq_batch {gs ds ls ss B : List Nat}
    (hB : batchShapeTensor gs ds ls ss = some B) :
    varianceShape gs ds ls ss = some B := by
  obtain ⟨hG, hD, hL, hS⟩ := batchShape_absorbs hB
  have hG' : bshape (some gs) (some B) = some B := hG
  have hD' : bshape (some ds) (some B) = some B := hD
  have hS' : bshape (some ss) (some B) = some B := hS
  unfold varianceShape
  rw [hB]
  show bshape (bshape (bshape (some ss) (some B)) (bshape (some ds) (some B)))
      (bshape (bshape (some ds) (some B))
        (bshape (bshape (some gs) (some B)) (bshape (some ds) (some B)))) = some B
  rw [hG', hD', hS', bshape_idem, bshape_idem, bshape_idem]

/-- Claim C1: for every input `x` and parameters `gamma`, `delta`, `loc`,
`scale` with `scale ≠ 0` and `delta ≠ 0`, `log_prob(x)` equals
`-0.5*log1p(y^2) - 0.5*(gamma + delta*asinh(y))^2 - log(scale/delta) - 0.5*log(2*pi)`
with `y = (x - loc) / scale`, and `x` broadcasts against the batch-shaped
parameters (the output carries the batch shape). -/
theorem claim1_log_prob_formula (gamma delta loc scale x : ℝ)
    (hs : scale ≠ 0) (hd : delta ≠ 0)
    (gs ds ls ss xs B : List Nat)
    (hB : batchShapeTensor gs ds ls ss = some B)
    (hx : broadcastShape xs B = some B) :
    johnsonLogProb gamma delta loc scale x =
        -0.5 * Real.log (1 + ((x - loc) / scale) ^ 2)
          - 0.5 * (gamma + delta * Real.arsinh ((x - loc) / scale)) ^ 2
          - Real.log (scale / delta) - 0.5 * Real.log (2 * Real.pi)
      ∧ logProbShape xs gs ds ls ss = some B := by
  refine ⟨?_, logProbShape_eq_batch hB hx⟩
  unfold johnsonLogProb log1psquare
  ring

/-- Witness for claim C1 at `gamma=0, delta=1, loc=0, scale=1, x=0` with
`gamma` scalar and the other parameters of shape `[2]`. -/
theorem claim1_log_prob_formula_witness :
    johnsonLogProb 0 1 0 1 0 =
        -0.5 * Real.log (1 + ((0 - 0) / 1) ^ 2)
          - 0.5 * (0 + 1 * Real.arsinh ((0 - 0) / 1)) ^ 2
          - Real.log (1 / 1) - 0.5 * Real.log (2 * Real.pi)
      ∧ logProbShape [] [] [2] [2] [2] = some [2] :=
  claim1_log_prob_formula 0 1 0 1 0 one_ne_zero one_ne_zero
    [] [2] [2] [2] [] [2] (by decide) (by decide)

/-- Claim C2: for every draw count `n` and uniform variate `u` in the open
interval `(0, 1)` (uniform generation is supplied by the external
framework), the sample is exactly
`scale * sinh((ndtri(u) - gamma) / delta) + loc`, the sample tensor has
shape `[n] + batch_shape`, and every returned sample is the image of some
`u` in `(0, 1)` under that formula. -/
theorem claim2_sample_formula (gamma delta loc scale u : ℝ) (n : Nat)
    (gs ds ls ss B : List Nat)
    (hu1 : 0 < u) (hu2 : u < 1)
    (hB : batchShapeTensor gs ds ls ss = some B) :
    johnsonSampleFromUniform gamma delta loc scale u =
        scale * Real.sinh ((ndtri u - gamma) / delta) + loc
      ∧ sampleShape n gs ds ls ss = some (n :: B)
      ∧ ∃ v, 0 < v ∧ v < 1 ∧
          johnsonSampleFromUniform gamma delta loc scale u =
            scale * Real.sinh ((ndtri v - gamma) / delta) + loc :=
  ⟨by unfold johnsonSampleFromUniform; ring, sampleShape_eq_batch n hB,
    u, hu1, hu2, by unfold johnsonSampleFromUniform; ring⟩

/-- Witness for claim C2 at `u = 1/2`, `n = 3`, scalar parameter shapes. -/
theorem claim2_sample_formula_witness :
    johnsonSampleFromUniform 0 1 0 1 (1 / 2) =
        1 * Real.sinh ((ndtri (1 / 2) - 0) / 1) + 0
      ∧ sampleShape 3 [] [] [] [] = some [3]
      ∧ ∃ v, 0 < v ∧ v < 1 ∧
          johnsonSampleFromUniform 0 1 0 1 (1 / 2) =
            1 * Real.sinh ((ndtri v - 0) / 1) + 0 :=
  claim2_sample_formula 0 1 0 1 (1 / 2) 3 [] [] [] [] []
    (by norm_num) (by norm_num) (by decide)

/-- Claim C3: for every input `x` and parameters with `scale ≠ 0`,
`cdf(x)` equals `Φ(gamma + delta * asinh((x - loc) / scale))` with Φ the
standard-normal CDF. -/
theorem claim3_cdf_formula (gamma delta loc scale x : ℝ) (hs : scale ≠ 0) :
    johnsonCdf gamma delta loc scale x =
      ndtr (gamma + delta * Real.arsinh ((x - loc) / scale)) := rfl

/-- Witness for claim C3 at `gamma=0, delta=1, loc=0, scale=1, x=0`. -/
theorem claim3_cdf_formula_witness :
    johnsonCdf 0 1 0 1 0 = ndtr (0 + 1 * Real.arsinh ((0 - 0) / 1)) :=
  claim3_cdf_formula 0 1 0 1 0 one_ne_zero

/-- Claim C4: for broadcast-compatible parameter shapes, the static and
dynamic batch-shape computations both equal the elementwise broadcast of
the four parameter shapes, and the outputs of `log_prob`, `cdf` and
`sample` carry that batch shape (`sample` prepends the draw count). -/
theorem claim4_batch_shape (gs ds ls ss xs B : List Nat) (n : Nat)
    (hB : batchShapeTensor gs ds ls ss = some B)
    (hx : broadcastShape xs B = some B) :
    batchShapeTensor gs ds ls ss = broadcastOfFour gs ds ls ss
      ∧ batchShapeStatic gs ds ls ss = broadcastOfFour gs ds ls ss
      ∧ batchShapeStatic gs ds ls ss = some B
      ∧ logProbShape xs gs ds ls ss = some B
      ∧ cdfShape xs gs ds ls ss = some B
      ∧ sampleShape n gs ds ls ss = some (n :: B) :=
  ⟨rfl, rfl, hB, logProbShape_eq_batch hB hx, cdfShape_eq_batch hB hx,
    sampleShape_eq_batch n hB⟩

/-- Witness for claim C4 with `gamma` scalar and `delta`, `loc`, `scale`
of shape `[2]` (the spec's broadcasting example), giving batch shape
`[2]`. -/
theorem claim4_batch_shape_witness :
    batchShapeTensor [] [2] [2] [2] = broadcastOfFour [] [2] [2] [2]
      ∧ batchShapeStatic [] [2] [2] [2] = broadcastOfFour [] [2] [2] [2]
      ∧ batchShapeStatic [] [2] [2] [2] = some [2]
      ∧ logProbShape [] [] [2] [2] [2] = some [2]
      ∧ cdfShape [] [] [2] [2] [2] = some [2]
      ∧ sampleShape 3 [] [2] [2] [2] = some [3, 2] :=
  claim4_batch_shape [] [2] [2] [2] [] [2] 3 (by decide) (by decide)

/-- Claim C7: for every `gamma`, `delta ≠ 0` and `scale`, `variance()`
equals `0.5 * scale^2 * expm1(1/delta^2) * (exp(1/delta^2) * cosh(2*gamma/delta) + 1)`,
and every parameter is broadcast-expanded to the full batch shape before
combination, so the result carries the full batch shape. -/
theorem claim7_variance_formula (gamma delta scale : ℝ) (hd : delta ≠ 0)
    (gs ds ls ss B : List Nat)
    (hB : batchShapeTensor gs ds ls ss = some B) :
    johnsonVariance gamma delta scale =
        0.5 * scale ^ 2 * expm1 (1 / delta ^ 2) *
          (Real.exp (1 / delta ^ 2) * Real.cosh (2 * gamma / delta) + 1)
      ∧ varianceShape gs ds ls ss = some B :=
  ⟨rfl, varianceShape_eq_batch hB⟩

/-- Witness for claim C7 at `gamma=0, delta=1, scale=1` with `loc` of
shape `[2]`, exercising the broadcast expansion of the unused `loc`. -/
theorem claim7_variance_formula_witness :
    johnsonVariance 0 1 1 =
        0.5 * 1 ^ 2 * expm1 (1 / 1 ^ 2) *
          (Real.exp (1 / 1 ^ 2) * Real.cosh (2 * 0 / 1) + 1)
      ∧ varianceShape [] [] [2] [] = some [2] :=
  claim7_variance_formula 0 1 1 one_ne_zero [] [] [2] [] [2] (by decide)

/-- Claim C10: for every parameters with `scale ≠ 0` and every input `x`,
`cdf(x)` lies in the closed unit interval. -/
theorem claim10_cdf_unit_interval (gamma delta loc scale x : ℝ)
    (hs : scale ≠ 0) :
    0 ≤ johnsonCdf gamma delta loc scale x
      ∧ johnsonCdf gamma delta loc scale x ≤ 1 :=
  ⟨ndtr_nonneg _, ndtr_le_one _⟩

/-- Witness for claim C10 at `gamma=0, delta=1, loc=0, scale=1, x=0`. -/
theorem claim10_cdf_unit_interval_witness :
    0 ≤ johnsonCdf 0 1 0 1 0 ∧ johnsonCdf 0 1 0 1 0 ≤ 1 :=
  claim10_cdf_unit_interval 0 1 0 1 0 one_ne_zero

/-- Claim C5: with `validate_args` true, at construction (`is_init`), and
parameters supplied as plain values (not refs), a domain error is raised
iff `delta ≤ 0` or `scale ≤ 0`, and a failing `delta` check carries the
message naming `delta`; with `validate_args` false no assertion is
emitted, and `log_prob` of the same invalid construction
(negative `delta`) returns NaN on every input. -/
theorem claim5_validation (delta scale : ℝ) :
    (raisesDomainError
        (parameterControlAssertions true true false false delta scale)
          ↔ delta ≤ 0 ∨ scale ≤ 0)
      ∧ (delta ≤ 0 →
          ∃ a ∈ parameterControlAssertions true true false false delta scale,
            ¬ a.1 ∧ a.2 = deltaPosMsg)
      ∧ parameterControlAssertions false true false false delta scale = []
      ∧ (delta < 0 → 0 < scale → ∀ gamma loc x,
          johnsonLogProbF gamma delta loc scale x = FVal.nan) := by
  refine ⟨?_, ?_, rfl, ?_⟩
  · simp [raisesDomainError, parameterControlAssertions, assertPositive, not_lt]
  · intro h
    refine ⟨assertPositive delta deltaPosMsg, ?_, not_lt.mpr h, rfl⟩
    simp [parameterControlAssertions]
  · intro hd hs gamma loc x
    have hsne : scale ≠ 0 := ne_of_gt hs
    have hdne : delta ≠ 0 := ne_of_lt hd
    have hneg : ¬ (0 < scale / delta) :=
      not_lt.mpr (le_of_lt (div_neg_of_pos_of_neg hs hd))
    simp [johnsonLogProbF, FVal.div, FVal.sub, FVal.add, FVal.mul, FVal.log,
      FVal.sq, FVal.asinh, FVal.log1psq, hsne, hdne, hneg]

/-- Witness for claim C5 at `delta = -1`, `scale = 1`. -/
theorem claim5_validation_witness :
    (raisesDomainError
        (parameterControlAssertions true true false false (-1) 1)
          ↔ (-1 : ℝ) ≤ 0 ∨ (1 : ℝ) ≤ 0)
      ∧ ((-1 : ℝ) ≤ 0 →
          ∃ a ∈ parameterControlAssertions true true false false (-1) 1,
            ¬ a.1 ∧ a.2 = deltaPosMsg)
      ∧ parameterControlAssertions false true false false (-1) 1 = []
      ∧ ((-1 : ℝ) < 0 → (0 : ℝ) < 1 → ∀ gamma loc x,
          johnsonLogProbF gamma (-1) loc 1 x = FVal.nan) :=
  claim5_validation (-1) 1

/-- Claim C6: when the four statically known parameter shapes cannot be
broadcast together, construction fails with a shape-incompatibility error
whose message includes all four shapes; when they are compatible, no such
error is raised. -/
theorem claim6_shape_error (gs ds ls ss : List Nat) :
    (batchShapeStatic gs ds ls ss = none →
        ∃ msg, constructionShapeError gs ds ls ss = some msg
          ∧ containsStr msg (shapeStr gs) ∧ containsStr msg (shapeStr ds)
          ∧ containsStr msg (shapeStr ls) ∧ containsStr msg (shapeStr ss))
      ∧ (batchShapeStatic gs ds ls ss ≠ none →
          constructionShapeError gs ds ls ss = none) := by
  constructor
  · intro h
    refine ⟨shapeErrMsg gs ds ls ss, ?_, ?_, ?_, ?_, ?_⟩
    · unfold constructionShapeError
      rw [h]
    · exact ⟨shapeMsgHead,
        shapeMsgDelta ++ shapeStr ds ++ shapeMsgLoc ++ shapeStr ls ++
          shapeMsgScale ++ shapeStr ss ++ shapeMsgTail,
        by simp [shapeErrMsg, String.append_assoc]⟩
    · exact ⟨shapeMsgHead ++ shapeStr gs ++ shapeMsgDelta,
        shapeMsgLoc ++ shapeStr ls ++ shapeMsgScale ++ shapeStr ss ++
          shapeMsgTail,
        by simp [shapeErrMsg, String.append_assoc]⟩
    · exact ⟨shapeMsgHead ++ shapeStr gs ++ shapeMsgDelta ++ shapeStr ds ++
          shapeMsgLoc,
        shapeMsgScale ++ shapeStr ss ++ shapeMsgTail,
        by simp [shapeErrMsg, String.append_assoc]⟩
    · exact ⟨shapeMsgHead ++ shapeStr gs ++ shapeMsgDelta ++ shapeStr ds ++
          shapeMsgLoc ++ shapeStr ls ++ shapeMsgScale,
        shapeMsgTail,
        by simp [shapeErrMsg, String.append_assoc]⟩
  · intro h
    cases hb : batchShapeStatic gs ds ls ss with
    | none => exact absurd hb h
    | some b =>
      unfold constructionShapeError
      rw [hb]

/-- Witness for claim C6: shapes `[2]` and `[3]` are incompatible and the
error message carries all four shapes; the spec's compatible example
raises nothing. -/
theorem claim6_shape_error_witness :
    (∃ msg, constructionShapeError [2] [3] [] [] = some msg
        ∧ containsStr msg (shapeStr [2]) ∧ containsStr msg (shapeStr [3])
        ∧ containsStr msg (shapeStr []) ∧ containsStr msg (shapeStr []))
      ∧ constructionShapeError [] [2] [2] [2] = none :=
  ⟨(claim6_shape_error [2] [3] [] []).1 (by decide),
    (claim6_shape_error [] [2] [2] [2]).2 (by decide)⟩

/-- Counterexample to claim C8 as stated: with negative `scale = -1`
(accepted by the code when validation is off) the CDF is strictly
decreasing, so `cdf(x1) ≤ cdf(x2)` fails for `x1 = 0 < x2 = sinh 1`. -/
theorem claim8_cdf_monotone_counterexample :
    ¬ (∀ x1 x2 : ℝ, x1 < x2 →
        johnsonCdf 0 1 0 (-1) x1 ≤ johnsonCdf 0 1 0 (-1) x2) := by
  intro h
  have hsh : (0 : ℝ) < Real.sinh 1 := Real.sinh_pos_iff.mpr one_pos
  have h1 := h 0 (Real.sinh 1) hsh
  have e1 : johnsonCdf 0 1 0 (-1) 0 = ndtr 0 := by
    unfold johnsonCdf
    norm_num
  have e2 : johnsonCdf 0 1 0 (-1) (Real.sinh 1) = ndtr (-1) := by
    show ndtr (0 + 1 * Real.arsinh ((Real.sinh 1 - 0) / (-1))) = ndtr (-1)
    rw [show (Real.sinh 1 - 0) / (-1 : ℝ) = -Real.sinh 1 by ring,
      Real.arsinh_neg, Real.arsinh_sinh]
    norm_num
  rw [e1, e2] at h1
  have h2 := ndtr_lt_ndtr (show (-1 : ℝ) < 0 by norm_num)
  linarith

/-- Claim C8 as amended: for parameters in the documented domain
(`delta > 0`, `scale > 0`), the CDF is monotone in the input and tends to
0 at minus infinity and to 1 at plus infinity. -/
theorem claim8_cdf_monotone_amended (gamma delta loc scale : ℝ)
    (hd : 0 < delta) (hs : 0 < scale) :
    (∀ x1 x2 : ℝ, x1 < x2 →
        johnsonCdf gamma delta loc scale x1 ≤ johnsonCdf gamma delta loc scale x2)
      ∧ Filter.Tendsto (johnsonCdf gamma delta loc scale) Filter.atBot (nhds 0)
      ∧ Filter.Tendsto (johnsonCdf gamma delta loc scale) Filter.atTop (nhds 1) := by
  have hlin : Filter.Tendsto (fun x : ℝ => (x - loc) / scale)
      Filter.atTop Filter.atTop :=
    (Filter.tendsto_atTop_add_const_right _ (-loc) Filter.tendsto_id).atTop_div_const hs
  have hlinb : Filter.Tendsto (fun x : ℝ => (x - loc) / scale)
      Filter.atBot Filter.atBot :=
    (Filter.tendsto_atBot_add_const_right _ (-loc) Filter.tendsto_id).atBot_div_const hs
  refine ⟨?_, ?_, ?_⟩
  · intro x1 x2 hx
    have hdiv : (x1 - loc) / scale ≤ (x2 - loc) / scale :=
      (div_le_div_iff_of_pos_right hs).mpr (by linarith)
    exact ndtr_mono (add_le_add_left
      (mul_le_mul_of_nonneg_left (Real.arsinh_le_arsinh.mpr hdiv) hd.le) gamma)
  · have t2 := tendsto_arsinh_atBot.comp hlinb
    have t3 := t2.const_mul_atBot hd
    have t4 := Filter.tendsto_atBot_add_const_left _ gamma t3
    exact tendsto_ndtr_atBot.comp t4
  · have t2 := tendsto_arsinh_atTop.comp hlin
    have t3 := t2.const_mul_atTop hd
    have t4 := Filter.tendsto_atTop_add_const_left _ gamma t3
    exact tendsto_ndtr_atTop.comp t4

/-- Witness for the amended claim C8 at `gamma=0, delta=1, loc=0,
scale=1`. -/
theorem claim8_cdf_monotone_amended_witness :
    (∀ x1 x2 : ℝ, x1 < x2 → johnsonCdf 0 1 0 1 x1 ≤ johnsonCdf 0 1 0 1 x2)
      ∧ Filter.Tendsto (johnsonCdf 0 1 0 1) Filter.atBot (nhds 0)
      ∧ Filter.Tendsto (johnsonCdf 0 1 0 1) Filter.atTop (nhds 1) :=
  claim8_cdf_monotone_amended 0 1 0 1 one_pos one_pos

/-- Counterexample to claim C9 as stated: at `gamma=0, delta=1, loc=0,
scale=-1`, the code's `cdf` does not equal one minus the positive-scale
`cdf` at the reflected point `2*loc - x` (instantiating at `x = 0` and at
`x = -sinh 1` would force `ndtr 0 = 1/2 = ndtr 1`, contradicting strict
monotonicity of the normal CDF). -/
theorem claim9_reflection_counterexample :
    ¬ (∀ x : ℝ, johnsonCdf 0 1 0 (-1) x = 1 - johnsonCdf 0 1 0 1 (2 * 0 - x)) := by
  intro h
  have h0 := h 0
  have e0l : johnsonCdf 0 1 0 (-1) 0 = ndtr 0 := by
    show ndtr (0 + 1 * Real.arsinh ((0 - 0) / (-1))) = ndtr 0
    norm_num
  have e0r : johnsonCdf 0 1 0 1 (2 * 0 - 0) = ndtr 0 := by
    show ndtr (0 + 1 * Real.arsinh ((2 * 0 - 0 - 0) / 1)) = ndtr 0
    norm_num
  rw [e0l, e0r] at h0
  have h1 := h (-Real.sinh 1)
  have e1l : johnsonCdf 0 1 0 (-1) (-Real.sinh 1) = ndtr 1 := by
    show ndtr (0 + 1 * Real.arsinh ((-Real.sinh 1 - 0) / (-1))) = ndtr 1
    rw [show (-Real.sinh 1 - 0) / (-1 : ℝ) = Real.sinh 1 by ring,
      Real.arsinh_sinh]
    norm_num
  have e1r : johnsonCdf 0 1 0 1 (2 * 0 - -Real.sinh 1) = ndtr 1 := by
    show ndtr (0 + 1 * Real.arsinh ((2 * 0 - -Real.sinh 1 - 0) / 1)) = ndtr 1
    rw [show (2 * 0 - -Real.sinh 1 - 0) / (1 : ℝ) = Real.sinh 1 by ring,
      Real.arsinh_sinh]
    norm_num
  rw [e1l, e1r] at h1
  have h2 := ndtr_lt_ndtr (show (0 : ℝ) < 1 by norm_num)
  linarith

/-- Claim C9 as amended: for `delta > 0`, `s > 0`, the instance with
`scale = -s` is accepted when validation is off and its sampler realizes
the reflection about `loc`: with the same uniform variate the sample is
`2*loc` minus the positive-scale sample, and `cdf` at `x` equals the
positive-scale `cdf` at `2*loc - x` (the code's negative-scale `cdf` is
the reflected distribution's survival function, not its CDF).
`log_prob`, however, evaluates `log(scale/delta)` on a negative argument
and therefore returns NaN on every input, while the positive-scale
`log_prob` at the reflected point is finite, so the negative-scale
`log_prob` never equals it. -/
theorem claim9_negative_scale_amended (gamma delta loc s u x : ℝ)
    (hd : 0 < delta) (hs : 0 < s) :
    parameterControlAssertions false true false false delta (-s) = []
      ∧ johnsonSampleFromUniform gamma delta loc (-s) u =
          2 * loc - johnsonSampleFromUniform gamma delta loc s u
      ∧ johnsonCdf gamma delta loc (-s) x =
          johnsonCdf gamma delta loc s (2 * loc - x)
      ∧ johnsonLogProbF gamma delta loc (-s) x = FVal.nan
      ∧ ∃ r, johnsonLogProbF gamma delta loc s (2 * loc - x) = FVal.fl r := by
  have hy : (x - loc) / (-s) = (2 * loc - x - loc) / s := by
    rw [div_neg, show 2 * loc - x - loc = -(x - loc) by ring, neg_div]
  have hsne : s ≠ 0 := ne_of_gt hs
  have hnegne : -s ≠ 0 := neg_ne_zero.mpr hsne
  have hdne : delta ≠ 0 := ne_of_gt hd
  have hneg : ¬ (0 < -s / delta) :=
    not_lt.mpr (le_of_lt (div_neg_of_neg_of_pos (neg_lt_zero.mpr hs) hd))
  refine ⟨rfl, ?_, ?_, ?_, ?_⟩
  · unfold johnsonSampleFromUniform
    ring
  · show ndtr (gamma + delta * Real.arsinh ((x - loc) / (-s))) =
      ndtr (gamma + delta * Real.arsinh ((2 * loc - x - loc) / s))
    rw [hy]
  · simp [johnsonLogProbF, FVal.div, FVal.sub, FVal.add, FVal.mul, FVal.log,
      FVal.sq, FVal.asinh, FVal.log1psq, hnegne, hdne, hneg]
  · simp [johnsonLogProbF, FVal.div, FVal.sub, FVal.add, FVal.mul, FVal.log,
      FVal.sq, FVal.asinh, FVal.log1psq, hsne, hdne, div_pos hs hd]

/-- Witness for the amended claim C9 at `gamma=0, delta=1, loc=0, s=1,
u=1/2, x=0`. -/
theorem claim9_negative_scale_amended_witness :
    parameterControlAssertions false true false false 1 (-1) = []
      ∧ johnsonSampleFromUniform 0 1 0 (-1) (1 / 2) =
          2 * 0 - johnsonSampleFromUniform 0 1 0 1 (1 / 2)
      ∧ johnsonCdf 0 1 0 (-1) 0 = johnsonCdf 0 1 0 1 (2 * 0 - 0)
      ∧ johnsonLogProbF 0 1 0 (-1) 0 = FVal.nan
      ∧ ∃ r, johnsonLogProbF 0 1 0 1 (2 * 0 - 0) = FVal.fl r :=
  claim9_negative_scale_amended 0 1 0 1 (1 / 2) 0 one_pos one_pos
